import Mathlib

/-!
Verification of the patchprovider label-transform pipeline
(src/python/dataprovider/transformer.py) against its specification.

Volumes are modelled as rational-valued arrays over a 3-D voxel lattice
with an optional leading channel axis; samples are insertion-ordered
key-value lists mirroring Python dict semantics (first match on lookup,
in-place replacement on update of an existing key, append otherwise).
Transforms return an optional error together with the sample state at
the moment the error was raised, mirroring in-place mutation followed
by an exception.
-/

namespace PatchProvider

/-- Spatial coordinate in axis order (z, y, x). -/
abbrev Coord := Nat × Nat × Nat

/-- Signed voxel displacement (dz, dy, dx). -/
abbrev Offset3 := Int × Int × Int

/-- A volume: optional channel count (none = 3-D data), spatial dims (z, y, x),
and rational values indexed by channel and spatial coordinate. -/
structure Vol where
  nchan : Option Nat
  dim : Coord
  val : Nat → Coord → ℚ

/-- Channel count used for iteration (1 for 3-D volumes). -/
def Vol.cc (v : Vol) : Nat :=
  match v.nchan with
  | none => 1
  | some n => n

/-- Read a value; 3-D volumes broadcast over the channel index. -/
def Vol.get (v : Vol) (c : Nat) (p : Coord) : ℚ :=
  match v.nchan with
  | none => v.val 0 p
  | some _ => v.val c p

/-- Coordinate lies inside the given spatial dims. -/
def inB (d : Coord) (p : Coord) : Prop :=
  p.1 < d.1 ∧ p.2.1 < d.2.1 ∧ p.2.2 < d.2.2

instance (d p : Coord) : Decidable (inB d p) := by
  unfold inB; infer_instance

/-- Extensional equality of volumes: same channel structure, same dims,
same values at every in-range index. -/
def Vol.Eqv (a b : Vol) : Prop :=
  a.nchan = b.nchan ∧ a.dim = b.dim ∧
    ∀ c < a.cc, ∀ z < a.dim.1, ∀ y < a.dim.2.1, ∀ x < a.dim.2.2,
      a.get c (z, y, x) = b.get c (z, y, x)

instance (a b : Vol) : Decidable (Vol.Eqv a b) := by
  unfold Vol.Eqv; infer_instance

/-- Modelled from the spec: numpy astype casts do not change the modelled
rational values of a volume. -/
def Vol.astype (v : Vol) : Vol := v

/-- Modelled from the spec: check-shape utility (utils.check_volume) from the
out-of-scope tensor container module, assumed available as a pure function. -/
def check_volume (v : Vol) : Vol := v

/-- All-ones volume of the same shape, as built by np.ones(sample[key].shape). -/
def Vol.onesLike (v : Vol) : Vol :=
  ⟨v.nchan, v.dim, fun _ _ => 1⟩

/-- A sample: insertion-ordered mapping from string keys to volumes. -/
abbrev Sample := List (String × Vol)

/-- Keys of a sample in insertion order. -/
def Sample.keys (s : Sample) : List String := s.map Prod.fst

/-- First-match lookup, as in a Python dict. -/
def Sample.find? : Sample → String → Option Vol
  | [], _ => none
  | e :: r, k => if e.1 = k then some e.2 else Sample.find? r k

/-- Python dict update: replace in place when the key exists, append otherwise. -/
def Sample.insert (s : Sample) (k : String) (v : Vol) : Sample :=
  if k ∈ Sample.keys s then s.map (fun e => if e.1 = k then (k, v) else e)
  else s ++ [(k, v)]

/-- Equality of optional volumes up to Vol.Eqv. -/
def OVol.Eqv : Option Vol → Option Vol → Prop
  | none, none => True
  | some a, some b => Vol.Eqv a b
  | some _, none => False
  | none, some _ => False

instance : (a b : Option Vol) → Decidable (OVol.Eqv a b)
  | none, none => isTrue trivial
  | some _, some _ => by unfold OVol.Eqv; infer_instance
  | some _, none => isFalse (fun h => h)
  | none, some _ => isFalse (fun h => h)

/-- Samples are the same: same keys in the same order, and extensionally
equal volumes at every key. -/
def Sample.Eqv (s t : Sample) : Prop :=
  Sample.keys s = Sample.keys t ∧
    ∀ k ∈ Sample.keys s, OVol.Eqv (Sample.find? s k) (Sample.find? t k)

instance (s t : Sample) : Decidable (Sample.Eqv s t) := by
  unfold Sample.Eqv; infer_instance

/-- Error kinds surfaced by the pipeline (spec section 7). -/
inductive TErr where
  | keyErr
  | shapeErr
  | typeErr
  deriving DecidableEq

/-- Auxiliary per-call parameters (kwargs); only object_id is ever read. -/
structure Params where
  object_id : Option ℚ

/-- Result of a transform application: the optional raised error together with
the sample state at that moment. -/
abbrev TRes := Option TErr × Sample

/-- Results are the same: same error and same resulting sample. -/
def ResEqv (a b : TRes) : Prop := a.1 = b.1 ∧ Sample.Eqv a.2 b.2

instance (a b : TRes) : Decidable (ResEqv a b) := by
  unfold ResEqv; infer_instance

/-! ## Volume operations (VolumeOps / Rebalancer collaborators)

These kernels live in modules of this repository that are not under src/
(dataprovider.transform, datatools, utils); they are modelled from the
spec, section 4.1 and 4.2. -/

/-- Shifted position of a coordinate under a signed offset. -/
def shiftP (p : Coord) (d : Offset3) : Offset3 :=
  ((p.1 : Int) + d.1, (p.2.1 : Int) + d.2.1, (p.2.2 : Int) + d.2.2)

/-- Signed position lies inside the given spatial dims. -/
def inBZ (d : Coord) (q : Offset3) : Prop :=
  0 ≤ q.1 ∧ q.1 < (d.1 : Int) ∧ 0 ≤ q.2.1 ∧ q.2.1 < (d.2.1 : Int) ∧
    0 ≤ q.2.2 ∧ q.2.2 < (d.2.2 : Int)

instance (d : Coord) (q : Offset3) : Decidable (inBZ d q) := by
  unfold inBZ; infer_instance

/-- Truncation of a signed position back to a coordinate. -/
def toC (q : Offset3) : Coord := (q.1.toNat, q.2.1.toNat, q.2.2.toNat)

/-- Coordinate viewed as a signed position. -/
def toOff (p : Coord) : Offset3 := ((p.1 : Int), (p.2.1 : Int), (p.2.2 : Int))

/-- Modelled from the spec: affinity value at voxel p for offset d
(transform.affinitize) -- 1.0 iff both endpoints are in bounds, carry the
same segmentation ID and that ID is nonzero; 0.0 otherwise, including when
the shifted position exits the volume. -/
def affVal (seg : Vol) (d : Offset3) (p : Coord) : ℚ :=
  if inB seg.dim p ∧ inBZ seg.dim (shiftP p d) ∧
      seg.get 0 p = seg.get 0 (toC (shiftP p d)) ∧ seg.get 0 p ≠ 0
  then 1 else 0

/-- Modelled from the spec: transform.affinitize as a whole volume. -/
def affinitize (seg : Vol) (d : Offset3) : Vol :=
  ⟨none, seg.dim, fun _ p => affVal seg d p⟩

/-- Axis offsets of the connectivity recompute, in the channel order used by
the code: channel 0 is (0,0,1), channel 1 is (0,1,0), channel 2 is (1,0,0). -/
def axisDst : Nat → Offset3
  | 0 => (0, 0, 1)
  | 1 => (0, 1, 0)
  | _ => (1, 0, 0)

/-- The 3-channel affinity stack built by the recompute branch of
Segmentation and Affinity (lines 99-103 and 145-149 of transformer.py). -/
def affinitize3 (seg : Vol) : Vol :=
  ⟨some 3, seg.dim, fun i p => affVal seg (axisDst i) p⟩

/-- Modelled from the spec: mask propagation value at voxel p for offset d
(transform.affinitize_mask) -- 1.0 only where both endpoints are in bounds
and carry a nonzero (valid) mask value. -/
def affMaskVal (m : Vol) (d : Offset3) (p : Coord) : ℚ :=
  if inB m.dim p ∧ inBZ m.dim (shiftP p d) ∧
      m.get 0 p ≠ 0 ∧ m.get 0 (toC (shiftP p d)) ≠ 0
  then 1 else 0

/-- Universe of in-bounds coordinates of a volume. -/
def vU (d : Coord) : Finset Coord :=
  (Finset.range d.1) ×ˢ ((Finset.range d.2.1) ×ˢ (Finset.range d.2.2))

/-- Modelled from the spec: lattice adjacency granted by a 3-channel affinity
volume -- voxels p and q are neighbors iff some axis edge between them holds
value 1.0 in the corresponding affinity channel. -/
def Nbr (aff : Vol) (p q : Coord) : Prop :=
  inB aff.dim p ∧ inB aff.dim q ∧
    ∃ i < 3, (aff.get i p = 1 ∧ toOff q = shiftP p (axisDst i)) ∨
             (aff.get i q = 1 ∧ toOff p = shiftP q (axisDst i))

instance (aff : Vol) : DecidableRel (Nbr aff) := fun p q => by
  unfold Nbr; infer_instance

/-- One step of neighborhood expansion inside universe U. -/
def expandS {α : Type} [DecidableEq α] (nbr : α → α → Prop) [DecidableRel nbr]
    (U : Finset α) (s : Finset α) : Finset α :=
  U.filter fun w => w ∈ s ∨ ∃ v ∈ s, nbr v w

/-- Connected component of a, computed as U.card expansion steps from {a}. -/
def reachS {α : Type} [DecidableEq α] (nbr : α → α → Prop) [DecidableRel nbr]
    (U : Finset α) (a : α) : Finset α :=
  (expandS nbr U)^[U.card] (U.filter (· = a))

/-- Raster index of a coordinate inside dims d. -/
def flat (d : Coord) (p : Coord) : Nat := (p.1 * d.2.1 + p.2.1) * d.2.2 + p.2.2

/-- Modelled from the spec: canonical fresh positive ID of the connected
component of voxel p -- one plus the minimal raster index in the component. -/
def lab (aff : Vol) (p : Coord) : Nat :=
  (((reachS (Nbr aff) (vU aff.dim) p).image (flat aff.dim)).min.untop' 0) + 1

/-- Modelled from the spec: connected-component labeling over the affinity
graph (datatools.get_segmentation; recompute_segmentation in spec 4.1).
Connected voxel sets share a fresh positive ID; isolated voxels become
singleton components with their own fresh positive ID. -/
def get_segmentation (aff : Vol) : Vol :=
  ⟨none, aff.dim, fun _ p => (lab aff p : ℚ)⟩

/-- The recompute branch shared by Segmentation and Affinity. -/
def recomputeSeg (seg : Vol) : Vol := get_segmentation (affinitize3 seg)

/-- Modelled from the spec: one boolean-as-float channel per requested ID,
plus a mask stack invalidating voxels whose value is 0
(transform.multiclass_expansion). -/
def multiclass_expansion (v : Vol) (ids : List ℚ) : Vol × Vol :=
  (⟨some ids.length, v.dim, fun c p => if v.get 0 p = ids.getD c 0 then 1 else 0⟩,
   ⟨some ids.length, v.dim, fun _ p => if v.get 0 p = 0 then 0 else 1⟩)

/-- Modelled from the spec: presence/absence collapse (transform.binarize). -/
def binarize (v : Vol) : Vol :=
  ⟨v.nchan, v.dim, fun c p => if v.get c p = 0 then 0 else 1⟩

/-- Center voxel index: floor-half of each spatial extent. -/
def centerOf (d : Coord) : Coord := (d.1 / 2, d.2.1 / 2, d.2.2 / 2)

/-- Modelled from the spec: binarize restricted to exactly one target ID
(transform.binarize_object); when no ID is supplied the ID found at the
volume's center voxel is used. -/
def binarize_object (v : Vol) (object_id : Option ℚ) : Vol :=
  ⟨v.nchan, v.dim, fun c p =>
    if v.get c p = object_id.getD (v.get 0 (centerOf v.dim)) then 1 else 0⟩

/-- Number of in-range voxels of channel c where the label is 1 (pos = true)
or 0 (pos = false) and the mask is positive. -/
def countCh (L M : Vol) (c : Nat) (pos : Bool) : Nat :=
  ((List.range L.dim.1).map fun z =>
    ((List.range L.dim.2.1).map fun y =>
      (List.range L.dim.2.2).countP fun x =>
        decide ((L.get c (z, y, x) = if pos then 1 else 0) ∧
          0 < M.get c (z, y, x))).sum).sum

/-- Modelled from the spec: inverse-class-frequency rebalancing
(transform.rebalance_binary_class, spec 4.2), applied independently per
channel; degenerate single-class channels keep their mask unchanged; the
optional base weight floors the negative-class weight at base_w * w1. -/
def rebalance_binary_class (L M : Vol) (base_w : Option ℚ) : Vol :=
  ⟨L.nchan, L.dim, fun c p =>
    let n1 : ℚ := countCh L M c true
    let n0 : ℚ := countCh L M c false
    if n1 = 0 ∨ n0 = 0 then M.get c p
    else
      let w1 := (n0 + n1) / (2 * n1)
      let w0 := (n0 + n1) / (2 * n0)
      let w2 := match base_w with
        | none => w0
        | some b => max w0 (b * w1)
      M.get c p * (if L.get c p = 1 then w1 else w2)⟩

/-- Modelled from the spec: elementwise product with numpy-style channel
broadcast, used for intersecting masks. -/
def vmul (a b : Vol) : Vol :=
  ⟨match a.nchan, b.nchan with
    | none, none => none
    | some m, none => some m
    | none, some n => some n
    | some m, some n => some (max m n),
   b.dim, fun c p => a.get c p * b.get c p⟩

/-- Modelled from the spec: axis-aligned sub-box extraction (transform.crop);
fails with ShapeError when offset + size exceeds the volume extent. -/
def crop (v : Vol) (offset size : Coord) : Except TErr Vol :=
  if offset.1 + size.1 ≤ v.dim.1 ∧ offset.2.1 + size.2.1 ≤ v.dim.2.1 ∧
      offset.2.2 + size.2.2 ≤ v.dim.2.2 then
    .ok ⟨v.nchan, size, fun c p =>
      v.get c (p.1 + offset.1, p.2.1 + offset.2.1, p.2.2 + offset.2.2)⟩
  else .error .shapeErr

/-! ## Transform variants (transformer.py) -/

/-- The closed set of Transform variants, each carrying its construction
parameters (transformer.py lines 53-283). -/
inductive Transform where
  | boundary (source target : String) (rebalance : Bool)
  | segmentation (source target : String) (recompute : Bool)
  | affinity (dst : List Offset3) (source target : String)
      (crop : Option Coord) (crop_size : Option Coord)
      (base_w : Option ℚ) (recompute : Bool)
  | semantic (ids : List ℚ) (source target : String) (rebalance : Bool)
  | synapse (source target : String) (rebalance : Bool) (base_w : ℚ)
  | objectInstance (source target : String) (rebalance : Bool)
  | centerInstance (source target : String) (mask : Option String) (rebalance : Bool)

/-- The configured target key of a Transform. -/
def Transform.target : Transform → String
  | .boundary _ t _ => t
  | .segmentation _ t _ => t
  | .affinity _ _ t _ _ _ _ => t
  | .semantic _ _ t _ => t
  | .synapse _ t _ _ => t
  | .objectInstance _ t _ => t
  | .centerInstance _ t _ _ => t

/-- Whether the transform is an Affinity configured with a crop offset. -/
def Transform.isAffinityWithCrop : Transform → Bool
  | .affinity _ _ _ (some _) _ _ _ => true
  | _ => false

/-- Transform.extract (transformer.py lines 43-50): the stored volume and its
companion mask, defaulting to all ones; fails on a missing source key. -/
def extract (s : Sample) (key : String) : Except TErr (Vol × Vol) :=
  match Sample.find? s key with
  | none => .error .keyErr
  | some v =>
    match Sample.find? s (key ++ "_mask") with
    | some m => .ok (v, Vol.astype m)
    | none => .ok (v, Vol.onesLike v)

/-- Write the target label and its companion mask into the sample. -/
def store (s : Sample) (target : String) (lbl msk : Vol) : Sample :=
  Sample.insert (Sample.insert s target lbl) (target ++ "_mask") msk

/-- Boundary.__call__ (lines 63-73). -/
def boundaryApply (source target : String) (rebalance : Bool) (s : Sample) : TRes :=
  match extract s source with
  | .error e => (some e, s)
  | .ok (bdr, msk) =>
    let lbl := (multiclass_expansion bdr [0]).1
    let msk2 := if rebalance then rebalance_binary_class lbl msk none else msk
    (none, store s target lbl msk2)

/-- Segmentation.__call__ (lines 93-110). -/
def segmentationApply (source target : String) (recompute : Bool) (s : Sample) : TRes :=
  match extract s source with
  | .error e => (some e, s)
  | .ok (seg0, msk) =>
    let seg := if recompute then recomputeSeg seg0 else seg0
    (none, store s target (check_volume (Vol.astype seg)) (check_volume (Vol.astype msk)))

/-- Affinity.__call__ up to and including the sample update, before the
optional crop step (lines 139-169). -/
def affinityNoCrop (dst : List Offset3) (source target : String) (base_w : Option ℚ)
    (recompute : Bool) (s : Sample) : TRes :=
  match extract s source with
  | .error e => (some e, s)
  | .ok (seg0, msk0) =>
    let seg := if recompute then recomputeSeg seg0 else seg0
    let lbl : Vol := ⟨some dst.length, seg.dim, fun i p => affVal seg (dst.getD i (0, 0, 0)) p⟩
    let msk : Vol := ⟨some dst.length, seg.dim, fun i p => affMaskVal msk0 (dst.getD i (0, 0, 0)) p⟩
    let msk2 := match base_w with
      | none => msk
      | some bw => rebalance_binary_class lbl msk (some bw)
    (none, store s target lbl msk2)

/-- One entry of the crop loop; a missing crop size is a construction-level
contract violation surfaced on first use, before any entry is modified. -/
def cropEntry (off : Coord) (sz : Option Coord) (v : Vol) : Except TErr Vol :=
  match sz with
  | none => .error .typeErr
  | some size => crop v off size

/-- The sample-wide crop loop (lines 172-174): entries are cropped in
insertion order; a failure keeps the already-cropped prefix and leaves the
failing entry and all later entries untouched. -/
def cropList (off : Coord) (sz : Option Coord) : Sample → TRes
  | [] => (none, [])
  | e :: rest =>
    match cropEntry off sz e.2 with
    | .error err => (some err, e :: rest)
    | .ok v2 => ((cropList off sz rest).1, (e.1, v2) :: (cropList off sz rest).2)

/-- Affinity.__call__ (lines 139-176). -/
def affinityApply (dst : List Offset3) (source target : String)
    (crop0 crop_size : Option Coord) (base_w : Option ℚ) (recompute : Bool)
    (s : Sample) : TRes :=
  match affinityNoCrop dst source target base_w recompute s with
  | (some e, s1) => (some e, s1)
  | (none, s1) =>
    match crop0 with
    | none => (none, s1)
    | some off => cropList off crop_size s1

/-- Semantic.__call__ (lines 198-212). -/
def semanticApply (ids : List ℚ) (source target : String) (rebalance : Bool)
    (s : Sample) : TRes :=
  match extract s source with
  | .error e => (some e, s)
  | .ok (sem, msk0) =>
    let em := multiclass_expansion sem ids
    let msk := vmul msk0 em.2
    let msk2 := if rebalance then rebalance_binary_class em.1 msk none else msk
    (none, store s target em.1 msk2)

/-- Synapse.__call__ (lines 226-237). -/
def synapseApply (source target : String) (rebalance : Bool) (base_w : ℚ)
    (s : Sample) : TRes :=
  match extract s source with
  | .error e => (some e, s)
  | .ok (syn, msk) =>
    let lbl := binarize syn
    let msk2 := if rebalance then rebalance_binary_class lbl msk (some base_w) else msk
    (none, store s target lbl msk2)

/-- ObjectInstance.__call__ (lines 250-261). -/
def objectInstanceApply (source target : String) (rebalance : Bool)
    (s : Sample) (p : Params) : TRes :=
  match extract s source with
  | .error e => (some e, s)
  | .ok (seg, msk) =>
    let lbl := binarize_object seg p.object_id
    let msk2 := if rebalance then rebalance_binary_class lbl msk none else msk
    (none, store s target lbl msk2)

/-- The single-voxel center mask written by CenterInstance (lines 279-281):
zeros of the source's shape with a 1.0 at the floor-half index of each of
the last three axes, across every channel where present. -/
def centerMask (seg : Vol) : Vol :=
  ⟨seg.nchan, seg.dim, fun _ p => if p = centerOf seg.dim then 1 else 0⟩

/-- CenterInstance.__call__ (lines 275-283): when a mask key is configured,
the raw source read happens first (raising on a missing key), then the
center mask is written, then control delegates to ObjectInstance. -/
def centerInstanceApply (source target : String) (mask : Option String)
    (rebalance : Bool) (s : Sample) (p : Params) : TRes :=
  match mask with
  | none => objectInstanceApply source target rebalance s p
  | some mk =>
    match Sample.find? s source with
    | none => (some .keyErr, s)
    | some seg =>
      objectInstanceApply source target rebalance (Sample.insert s mk (centerMask seg)) p

/-- Dynamic dispatch of Transform.__call__ over the variants. -/
def Transform.apply : Transform → Sample → Params → TRes
  | .boundary src tgt rb, s, _ => boundaryApply src tgt rb s
  | .segmentation src tgt rc, s, _ => segmentationApply src tgt rc s
  | .affinity dst src tgt cr cs bw rc, s, _ => affinityApply dst src tgt cr cs bw rc s
  | .semantic ids src tgt rb, s, _ => semanticApply ids src tgt rb s
  | .synapse src tgt rb bw, s, _ => synapseApply src tgt rb bw s
  | .objectInstance src tgt rb, s, p => objectInstanceApply src tgt rb s p
  | .centerInstance src tgt mk rb, s, p => centerInstanceApply src tgt mk rb s p

/-! ## Pipeline (Transformer, lines 17-32) -/

/-- A pipeline: the ordered sequence of appended Transforms. -/
structure Transformer where
  transforms : List Transform

/-- The loop body of Transformer.__call__: thread the sample through the
transforms in order, stopping at the first raised error. -/
def runList : List Transform → Sample → Params → TRes
  | [], s, _ => (none, s)
  | t :: ts, s, p =>
    match Transform.apply t s p with
    | (some e, s1) => (some e, s1)
    | (none, s1) => runList ts s1 p

/-- Transformer.__call__ (lines 25-28). -/
def Transformer.call (tr : Transformer) (s : Sample) (p : Params) : TRes :=
  runList tr.transforms s p

/-- A dynamically typed Python value handed to Transformer.append: either a
Transform instance or anything else. -/
inductive PyVal where
  | transform (t : Transform)
  | other (tag : Nat)

/-- Transformer.append (lines 30-32): the isinstance assertion rejects
non-Transform values before the sequence is touched. -/
def Transformer.append (tr : Transformer) (v : PyVal) : Option TErr × Transformer :=
  match v with
  | .transform t => (none, ⟨tr.transforms ++ [t]⟩)
  | .other _ => (some .typeErr, tr)

/-- Every transform of the list succeeds when the sample is threaded through. -/
def noFailB : List Transform → Sample → Params → Bool
  | [], _, _ => true
  | t :: ts, s, p =>
    match Transform.apply t s p with
    | (some _, _) => false
    | (none, s1) => noFailB ts s1 p

/-! ## Auxiliary predicates and concrete fixtures -/

/-- Pure lattice adjacency along the three canonical axis offsets. -/
def Adj (d : Coord) (p q : Coord) : Prop :=
  inB d p ∧ inB d q ∧
    ∃ i < 3, toOff q = shiftP p (axisDst i) ∨ toOff p = shiftP q (axisDst i)

/-- Every entry of the sample stored under key k holds value v. -/
def AllVals (s : Sample) (k : String) (v : Vol) : Prop :=
  ∀ e ∈ s, e.1 = k → e.2 = v

/-- A 3-D volume from a pointwise description. -/
def cV (d : Coord) (f : Coord → ℚ) : Vol := ⟨none, d, fun _ p => f p⟩

/-- Concrete 1x1x2 segmentation volume holding IDs 1, 2. -/
def V12 : Vol := cV (1, 1, 2) (fun p => if p.2.2 = 0 then 1 else 2)

/-- Concrete all-ones 3x3x3 volume. -/
def V3 : Vol := cV (3, 3, 3) (fun _ => 1)

/-- Concrete all-ones 1x1x1 volume. -/
def V1 : Vol := cV (1, 1, 1) (fun _ => 1)

/-- Empty parameter mapping. -/
def pNone : Params := ⟨none⟩

/-- Concrete one-entry sample holding V12 under key "a". -/
def sOne : Sample := [("a", V12)]

/-- Concrete sample for the crop-success instantiation. -/
def sC4 : Sample := [("seg", V3)]

/-- Concrete sample with mismatched entry shapes for the partial-crop exhibit. -/
def sC5 : Sample := [("seg", V3), ("small", V1)]

/-- Concrete Affinity transform with a crop that fails on the second entry. -/
def tC5 : Transform :=
  .affinity [(0, 0, 1)] "seg" "t" (some (0, 0, 0)) (some (2, 2, 2)) none false

/-! ## Basic lemmas: keys, strings, samples -/

theorem ne_append_mask (t : String) : t ≠ t ++ "_mask" := by
  intro h
  have h1 := congrArg String.length h
  rw [String.length_append] at h1
  have h5 : "_mask".length = 5 := rfl
  omega

theorem append_mask_inj {a b : String} (h : a ++ "_mask" = b ++ "_mask") : a = b := by
  have hd := congrArg String.data h
  rw [String.data_append, String.data_append] at hd
  have h2 := List.append_cancel_right hd
  cases a; cases b; exact congrArg String.mk h2

theorem vol_eqv_refl (a : Vol) : Vol.Eqv a a :=
  ⟨rfl, rfl, fun _ _ _ _ _ _ _ _ => rfl⟩

theorem ovol_eqv_refl (a : Option Vol) : OVol.Eqv a a := by
  cases a
  · trivial
  · exact vol_eqv_refl _

theorem sample_eqv_refl (s : Sample) : Sample.Eqv s s :=
  ⟨rfl, fun _ _ => ovol_eqv_refl _⟩

theorem keys_insert (s : Sample) (k : String) (v : Vol) :
    Sample.keys (Sample.insert s k v) =
      if k ∈ Sample.keys s then Sample.keys s else Sample.keys s ++ [k] := by
  unfold Sample.insert
  by_cases hk : k ∈ Sample.keys s
  · rw [if_pos hk, if_pos hk]
    unfold Sample.keys
    rw [List.map_map]
    refine List.map_congr_left ?_
    intro e _
    by_cases he : e.1 = k
    · simp [he]
    · simp [he]
  · rw [if_neg hk, if_neg hk]
    unfold Sample.keys
    simp

theorem mem_keys_insert_self (s : Sample) (k : String) (v : Vol) :
    k ∈ Sample.keys (Sample.insert s k v) := by
  rw [keys_insert]
  by_cases hk : k ∈ Sample.keys s
  · rw [if_pos hk]; exact hk
  · rw [if_neg hk]; simp

theorem mem_keys_insert_of_mem (s : Sample) {k2 : String} (k : String) (v : Vol)
    (h : k2 ∈ Sample.keys s) : k2 ∈ Sample.keys (Sample.insert s k v) := by
  rw [keys_insert]
  by_cases hk : k ∈ Sample.keys s
  · rw [if_pos hk]; exact h
  · rw [if_neg hk]; exact List.mem_append_left _ h

theorem find?_append_self {s : Sample} {k : String} (h : k ∉ Sample.keys s) (v : Vol) :
    Sample.find? (s ++ [(k, v)]) k = some v := by
  induction s with
  | nil => simp [Sample.find?]
  | cons e r ih =>
    have he : e.1 ≠ k := by
      intro he
      exact h (by rw [← he]; exact List.mem_map_of_mem _ (List.mem_cons_self _ _))
    have hr : k ∉ Sample.keys r := fun hm => h (List.mem_cons_of_mem _ hm)
    rw [List.cons_append]
    unfold Sample.find?
    rw [if_neg he]
    exact ih hr

theorem find?_map_self {s : Sample} {k : String} (h : k ∈ Sample.keys s) (v : Vol) :
    Sample.find? (s.map (fun e => if e.1 = k then (k, v) else e)) k = some v := by
  induction s with
  | nil => simp [Sample.keys] at h
  | cons e r ih =>
    rw [List.map_cons]
    by_cases he : e.1 = k
    · rw [if_pos he]
      unfold Sample.find?
      rw [if_pos rfl]
    · rw [if_neg he]
      unfold Sample.find?
      rw [if_neg he]
      refine ih ?_
      rcases List.mem_cons.mp h with h1 | h1
      · exact absurd h1.symm he
      · exact h1

theorem find?_insert_self (s : Sample) (k : String) (v : Vol) :
    Sample.find? (Sample.insert s k v) k = some v := by
  unfold Sample.insert
  by_cases hk : k ∈ Sample.keys s
  · rw [if_pos hk]
    exact find?_map_self hk v
  · rw [if_neg hk]
    exact find?_append_self hk v

theorem find?_insert_of_ne (s : Sample) {k2 k : String} (h : k2 ≠ k) (v : Vol) :
    Sample.find? (Sample.insert s k v) k2 = Sample.find? s k2 := by
  unfold Sample.insert
  by_cases hk : k ∈ Sample.keys s
  · rw [if_pos hk]
    clear hk
    induction s with
    | nil => rfl
    | cons e r ih =>
      rw [List.map_cons]
      by_cases he : e.1 = k
      · rw [if_pos he]
        unfold Sample.find?
        rw [if_neg (fun hc : k = k2 => h hc.symm), if_neg (fun hc : e.1 = k2 => h (he ▸ hc).symm)]
        exact ih
      · rw [if_neg he]
        unfold Sample.find?
        exact if_congr Iff.rfl rfl ih
  · rw [if_neg hk]
    induction s with
    | nil =>
      rw [List.nil_append]
      unfold Sample.find?
      rw [if_neg (fun hc : (k, v).1 = k2 => h hc.symm)]
      rfl
    | cons e r ih =>
      rw [List.cons_append]
      unfold Sample.find?
      exact if_congr Iff.rfl rfl (ih (fun hm => hk (List.mem_cons_of_mem _ hm)))

theorem find?_eq_none_iff (s : Sample) (k : String) :
    Sample.find? s k = none ↔ k ∉ Sample.keys s := by
  induction s with
  | nil => simp [Sample.find?, Sample.keys]
  | cons e r ih =>
    unfold Sample.find?
    by_cases he : e.1 = k
    · rw [if_pos he]
      simp [Sample.keys, he]
    · rw [if_neg he]
      rw [ih]
      constructor
      · intro hn hm
        rcases List.mem_cons.mp hm with h1 | h1
        · exact he h1.symm
        · exact hn h1
      · intro hn hm
        exact hn (List.mem_cons_of_mem _ hm)

theorem allVals_insert_self (s : Sample) (k : String) (v : Vol) :
    AllVals (Sample.insert s k v) k v := by
  intro e he hek
  unfold Sample.insert at he
  by_cases hk : k ∈ Sample.keys s
  · rw [if_pos hk] at he
    rcases List.mem_map.mp he with ⟨a, _, ha⟩
    by_cases hak : a.1 = k
    · rw [if_pos hak] at ha
      rw [← ha]
    · rw [if_neg hak] at ha
      exact absurd (ha ▸ hek) hak
  · rw [if_neg hk] at he
    rcases List.mem_append.mp he with h1 | h1
    · exact absurd (List.mem_map_of_mem Prod.fst h1) (hek ▸ hk)
    · rw [List.mem_singleton.mp h1]

theorem allVals_insert_of_ne {k k2 : String} (h : k ≠ k2) (s : Sample) (v w : Vol)
    (hv : AllVals s k v) : AllVals (Sample.insert s k2 w) k v := by
  intro e he hek
  unfold Sample.insert at he
  by_cases hk : k2 ∈ Sample.keys s
  · rw [if_pos hk] at he
    rcases List.mem_map.mp he with ⟨a, ha1, ha⟩
    by_cases hak : a.1 = k2
    · rw [if_pos hak] at ha
      rw [← ha] at hek
      exact absurd hek (Ne.symm h)
    · rw [if_neg hak] at ha
      rw [← ha]
      exact hv a ha1 (by rw [ha]; exact hek)
  · rw [if_neg hk] at he
    rcases List.mem_append.mp he with h1 | h1
    · exact hv e h1 hek
    · rw [List.mem_singleton.mp h1] at hek
      exact absurd hek (Ne.symm h)

theorem insert_of_allVals {s : Sample} {k : String} {v : Vol}
    (hm : k ∈ Sample.keys s) (hv : AllVals s k v) : Sample.insert s k v = s := by
  unfold Sample.insert
  rw [if_pos hm]
  have : ∀ e ∈ s, (if e.1 = k then (k, v) else e) = e := by
    intro e he
    by_cases hek : e.1 = k
    · rw [if_pos hek, ← hek, ← hv e he hek]
    · rw [if_neg hek]
  rw [List.map_congr_left this]
  simp

theorem store_store (s : Sample) (t : String) (l m : Vol) :
    store (store s t l m) t l m = store s t l m := by
  unfold store
  have htm := ne_append_mask t
  have hin : Sample.insert (Sample.insert (Sample.insert s t l) (t ++ "_mask") m) t l =
      Sample.insert (Sample.insert s t l) (t ++ "_mask") m := by
    refine insert_of_allVals ?_ ?_
    · exact mem_keys_insert_of_mem _ _ _ (mem_keys_insert_self s t l)
    · exact allVals_insert_of_ne htm _ l m (allVals_insert_self s t l)
  rw [hin]
  exact insert_of_allVals
    (mem_keys_insert_self (Sample.insert s t l) (t ++ "_mask") m)
    (allVals_insert_self (Sample.insert s t l) (t ++ "_mask") m)

theorem find?_store_target (s : Sample) (t : String) (l m : Vol) :
    Sample.find? (store s t l m) t = some l := by
  unfold store
  rw [find?_insert_of_ne _ (ne_append_mask t) m, find?_insert_self]

theorem find?_store_mask (s : Sample) (t : String) (l m : Vol) :
    Sample.find? (store s t l m) (t ++ "_mask") = some m := by
  unfold store
  rw [find?_insert_self]

theorem find?_store_other (s : Sample) {k t : String} (h1 : k ≠ t)
    (h2 : k ≠ t ++ "_mask") (l m : Vol) :
    Sample.find? (store s t l m) k = Sample.find? s k := by
  unfold store
  rw [find?_insert_of_ne _ h2 m, find?_insert_of_ne _ h1 l]

theorem mem_keys_store_target (s : Sample) (t : String) (l m : Vol) :
    t ∈ Sample.keys (store s t l m) :=
  mem_keys_insert_of_mem _ _ _ (mem_keys_insert_self s t l)

theorem mem_keys_store_mask (s : Sample) (t : String) (l m : Vol) :
    t ++ "_mask" ∈ Sample.keys (store s t l m) :=
  mem_keys_insert_self _ _ _

theorem mem_keys_store_of_mem (s : Sample) {k : String} (t : String) (l m : Vol)
    (h : k ∈ Sample.keys s) : k ∈ Sample.keys (store s t l m) :=
  mem_keys_insert_of_mem _ _ _ (mem_keys_insert_of_mem _ _ _ h)


/-! ## Connected-component machinery -/

theorem expandS_subset {α : Type} [DecidableEq α] (nbr : α → α → Prop) [DecidableRel nbr]
    (U s : Finset α) : expandS nbr U s ⊆ U :=
  Finset.filter_subset _ _

theorem subset_expandS {α : Type} [DecidableEq α] (nbr : α → α → Prop) [DecidableRel nbr]
    {U s : Finset α} (hs : s ⊆ U) : s ⊆ expandS nbr U s :=
  fun _ hx => Finset.mem_filter.mpr ⟨hs hx, Or.inl hx⟩

theorem expandS_mono {α : Type} [DecidableEq α] (nbr : α → α → Prop) [DecidableRel nbr]
    {U s t : Finset α} (h : s ⊆ t) : expandS nbr U s ⊆ expandS nbr U t := by
  intro w hw
  rcases Finset.mem_filter.mp hw with ⟨hU, hc⟩
  refine Finset.mem_filter.mpr ⟨hU, ?_⟩
  rcases hc with h1 | ⟨v, hv, hn⟩
  · exact Or.inl (h h1)
  · exact Or.inr ⟨v, h hv, hn⟩

theorem expandS_empty {α : Type} [DecidableEq α] (nbr : α → α → Prop) [DecidableRel nbr]
    (U : Finset α) : expandS nbr U ∅ = ∅ := by
  simp [expandS]

theorem iterate_expandS_subset {α : Type} [DecidableEq α] (nbr : α → α → Prop)
    [DecidableRel nbr] {U s : Finset α} (hs : s ⊆ U) (k : Nat) :
    (expandS nbr U)^[k] s ⊆ U := by
  cases k with
  | zero => exact hs
  | succ n =>
    rw [Function.iterate_succ_apply']
    exact expandS_subset nbr U _

theorem iterate_expandS_le_succ {α : Type} [DecidableEq α] (nbr : α → α → Prop)
    [DecidableRel nbr] {U s : Finset α} (hs : s ⊆ U) (k : Nat) :
    (expandS nbr U)^[k] s ⊆ (expandS nbr U)^[k + 1] s := by
  rw [Function.iterate_succ_apply']
  exact subset_expandS nbr (iterate_expandS_subset nbr hs k)

theorem iterate_expandS_le {α : Type} [DecidableEq α] (nbr : α → α → Prop)
    [DecidableRel nbr] {U s : Finset α} (hs : s ⊆ U) {j k : Nat} (h : j ≤ k) :
    (expandS nbr U)^[j] s ⊆ (expandS nbr U)^[k] s := by
  induction h with
  | refl => exact Finset.Subset.refl _
  | step h2 ih => exact ih.trans (iterate_expandS_le_succ nbr hs _)

theorem iterate_expandS_fix {α : Type} [DecidableEq α] (nbr : α → α → Prop)
    [DecidableRel nbr] {U s : Finset α} (h : expandS nbr U s = s) (k : Nat) :
    (expandS nbr U)^[k] s = s := by
  induction k with
  | zero => rfl
  | succ n ih => rw [Function.iterate_succ_apply', ih, h]

theorem expandS_reachS {α : Type} [DecidableEq α] (nbr : α → α → Prop) [DecidableRel nbr]
    (U : Finset α) (a : α) : expandS nbr U (reachS nbr U a) = reachS nbr U a := by
  by_cases hU0 : U = ∅
  · subst hU0
    unfold reachS
    rw [Finset.filter_empty, Finset.card_empty, Function.iterate_zero_apply]
    exact expandS_empty nbr ∅
  have hN0 : 0 < U.card := Finset.card_pos.mpr (Finset.nonempty_iff_ne_empty.mpr hU0)
  have hs0 : U.filter (· = a) ⊆ U := Finset.filter_subset _ _
  by_cases hfix : ∃ k < U.card, expandS nbr U ((expandS nbr U)^[k] (U.filter (· = a))) =
      (expandS nbr U)^[k] (U.filter (· = a))
  · obtain ⟨k, hk, hf⟩ := hfix
    have hN : (expandS nbr U)^[U.card] (U.filter (· = a)) =
        (expandS nbr U)^[k] (U.filter (· = a)) := by
      have hsplit : U.card = (U.card - k) + k := by omega
      rw [hsplit, Function.iterate_add_apply]
      exact iterate_expandS_fix nbr hf _
    unfold reachS
    rw [hN, hf]
  · exfalso
    push_neg at hfix
    by_cases ha : a ∈ U
    · have h0 : U.filter (· = a) = {a} := by
        rw [Finset.filter_eq']
        exact if_pos ha
      have hcard0 : (U.filter (· = a)).card = 1 := by rw [h0]; rfl
      have grow : ∀ k, k ≤ U.card → k + 1 ≤ ((expandS nbr U)^[k] (U.filter (· = a))).card := by
        intro k
        induction k with
        | zero =>
          intro _
          rw [Function.iterate_zero_apply, hcard0]
        | succ n ih =>
          intro hn
          have h1 : n + 1 ≤ ((expandS nbr U)^[n] (U.filter (· = a))).card := ih (by omega)
          have hne : (expandS nbr U)^[n + 1] (U.filter (· = a)) ≠
              (expandS nbr U)^[n] (U.filter (· = a)) := by
            rw [Function.iterate_succ_apply']
            exact hfix n (by omega)
          have hss : (expandS nbr U)^[n] (U.filter (· = a)) ⊂
              (expandS nbr U)^[n + 1] (U.filter (· = a)) :=
            ssubset_of_ne_of_subset (Ne.symm hne) (iterate_expandS_le_succ nbr hs0 n)
          have := Finset.card_lt_card hss
          omega
      have hbig := grow U.card (le_refl _)
      have hsmall : ((expandS nbr U)^[U.card] (U.filter (· = a))).card ≤ U.card :=
        Finset.card_le_card (iterate_expandS_subset nbr hs0 _)
      omega
    · have h0 : U.filter (· = a) = ∅ := by
        rw [Finset.filter_eq']
        exact if_neg ha
      refine hfix 0 hN0 ?_
      rw [Function.iterate_zero_apply, h0, expandS_empty]

theorem reachS_subset {α : Type} [DecidableEq α] (nbr : α → α → Prop) [DecidableRel nbr]
    (U : Finset α) (a : α) : reachS nbr U a ⊆ U :=
  iterate_expandS_subset nbr (Finset.filter_subset _ _) _

theorem reachS_of_not_mem {α : Type} [DecidableEq α] (nbr : α → α → Prop) [DecidableRel nbr]
    {U : Finset α} {a : α} (ha : a ∉ U) : reachS nbr U a = ∅ := by
  have h0 : U.filter (· = a) = ∅ := by
    rw [Finset.filter_eq']
    exact if_neg ha
  unfold reachS
  rw [h0, iterate_expandS_fix nbr (expandS_empty nbr U)]

theorem mem_reachS_self {α : Type} [DecidableEq α] (nbr : α → α → Prop) [DecidableRel nbr]
    {U : Finset α} {a : α} (ha : a ∈ U) : a ∈ reachS nbr U a := by
  have h0 : a ∈ U.filter (· = a) := Finset.mem_filter.mpr ⟨ha, rfl⟩
  exact iterate_expandS_le nbr (Finset.filter_subset _ _) (Nat.zero_le _) h0

theorem conn_of_mem_iterate {α : Type} [DecidableEq α] (nbr : α → α → Prop) [DecidableRel nbr]
    (U : Finset α) (a : α) :
    ∀ (k : Nat) (s : Finset α), (∀ x ∈ s, Relation.ReflTransGen nbr a x) →
      ∀ b ∈ (expandS nbr U)^[k] s, Relation.ReflTransGen nbr a b := by
  intro k
  induction k with
  | zero => exact fun s h => h
  | succ n ih =>
    intro s hs b hb
    rw [Function.iterate_succ_apply'] at hb
    rcases Finset.mem_filter.mp hb with ⟨hU, hc⟩
    rcases hc with h1 | ⟨v, hv, hn⟩
    · exact ih s hs b h1
    · exact (ih s hs v hv).tail hn

theorem conn_of_mem_reachS {α : Type} [DecidableEq α] {nbr : α → α → Prop} [DecidableRel nbr]
    {U : Finset α} {a b : α} (h : b ∈ reachS nbr U a) : Relation.ReflTransGen nbr a b := by
  refine conn_of_mem_iterate nbr U a U.card (U.filter (· = a)) ?_ b h
  intro x hx
  rw [(Finset.mem_filter.mp hx).2]

theorem mem_reachS_of_conn {α : Type} [DecidableEq α] {nbr : α → α → Prop} [DecidableRel nbr]
    {U : Finset α} (hb : ∀ x y, nbr x y → x ∈ U ∧ y ∈ U) {a b : α} (ha : a ∈ U)
    (h : Relation.ReflTransGen nbr a b) : b ∈ reachS nbr U a := by
  induction h with
  | refl => exact mem_reachS_self nbr ha
  | tail h1 h2 ih =>
    rw [← expandS_reachS nbr U a]
    exact Finset.mem_filter.mpr ⟨(hb _ _ h2).2, Or.inr ⟨_, ih, h2⟩⟩

theorem mem_reachS_iff {α : Type} [DecidableEq α] {nbr : α → α → Prop} [DecidableRel nbr]
    {U : Finset α} (hb : ∀ x y, nbr x y → x ∈ U ∧ y ∈ U) {a : α} (ha : a ∈ U) (b : α) :
    b ∈ reachS nbr U a ↔ Relation.ReflTransGen nbr a b :=
  ⟨conn_of_mem_reachS, mem_reachS_of_conn hb ha⟩

theorem conn_symm {α : Type} {nbr : α → α → Prop} (hsym : ∀ x y, nbr x y → nbr y x)
    {a b : α} (h : Relation.ReflTransGen nbr a b) : Relation.ReflTransGen nbr b a := by
  induction h with
  | refl => exact Relation.ReflTransGen.refl
  | tail h1 h2 ih => exact (Relation.ReflTransGen.single (hsym _ _ h2)).trans ih

theorem reachS_eq_of_conn {α : Type} [DecidableEq α] {nbr : α → α → Prop} [DecidableRel nbr]
    {U : Finset α} (hsym : ∀ x y, nbr x y → nbr y x)
    (hb : ∀ x y, nbr x y → x ∈ U ∧ y ∈ U) {a b : α} (ha : a ∈ U)
    (h : Relation.ReflTransGen nbr a b) : reachS nbr U a = reachS nbr U b := by
  have hbU : b ∈ U := by
    induction h with
    | refl => exact ha
    | tail h1 h2 ih => exact (hb _ _ h2).2
  ext x
  rw [mem_reachS_iff hb ha, mem_reachS_iff hb hbU]
  constructor
  · intro hx
    exact (conn_symm hsym h).trans hx
  · intro hx
    exact h.trans hx



/-! ## Coordinate lemmas -/

theorem mem_vU {d p : Coord} : p ∈ vU d ↔ inB d p := by
  unfold vU inB
  rw [Finset.mem_product, Finset.mem_product]
  simp [Finset.mem_range]

theorem toC_toOff (p : Coord) : toC (toOff p) = p := by
  unfold toC toOff
  simp

theorem inBZ_toOff {d : Coord} {p : Coord} : inBZ d (toOff p) ↔ inB d p := by
  obtain ⟨z, y, x⟩ := p
  obtain ⟨zd, yd, xd⟩ := d
  unfold inBZ toOff inB
  dsimp only
  omega

theorem pair_digit_inj {a b c e n : Nat} (hb : b < n) (he : e < n)
    (h : a * n + b = c * n + e) : a = c ∧ b = e := by
  have hbe : b = e := by
    have h1 := congrArg (· % n) h
    simp only [Nat.add_comm _ b, Nat.add_comm _ e, Nat.add_mul_mod_self_right] at h1
    rwa [Nat.mod_eq_of_lt hb, Nat.mod_eq_of_lt he] at h1
  subst hbe
  have h2 : a * n = c * n := by omega
  have hn : 0 < n := Nat.pos_of_ne_zero (by omega)
  exact ⟨Nat.eq_of_mul_eq_mul_right hn h2, rfl⟩

theorem flat_inj {d p q : Coord} (hp : inB d p) (hq : inB d q)
    (h : flat d p = flat d q) : p = q := by
  obtain ⟨z1, y1, x1⟩ := p
  obtain ⟨z2, y2, x2⟩ := q
  obtain ⟨hz1, hy1, hx1⟩ := hp
  obtain ⟨hz2, hy2, hx2⟩ := hq
  unfold flat at h
  obtain ⟨h1, h2⟩ := pair_digit_inj hx1 hx2 h
  obtain ⟨h3, h4⟩ := pair_digit_inj hy1 hy2 h1
  rw [Prod.mk.injEq, Prod.mk.injEq]
  exact ⟨h3, h4, h2⟩



/-! ## Labeling lemmas and idempotence of the recompute -/

theorem nbr_symm (aff : Vol) : ∀ p q, Nbr aff p q → Nbr aff q p := by
  rintro p q ⟨h1, h2, i, hi, hc⟩
  exact ⟨h2, h1, i, hi, hc.symm⟩

theorem nbr_bounds (aff : Vol) : ∀ p q, Nbr aff p q → p ∈ vU aff.dim ∧ q ∈ vU aff.dim := by
  rintro p q ⟨h1, h2, _⟩
  exact ⟨mem_vU.mpr h1, mem_vU.mpr h2⟩

theorem nbr_adj {aff : Vol} {p q : Coord} (h : Nbr aff p q) : Adj aff.dim p q := by
  obtain ⟨h1, h2, i, hi, hc⟩ := h
  refine ⟨h1, h2, i, hi, ?_⟩
  rcases hc with ⟨_, heq⟩ | ⟨_, heq⟩
  · exact Or.inl heq
  · exact Or.inr heq

theorem lab_eq_of_reachS_eq {aff : Vol} {p q : Coord}
    (h : reachS (Nbr aff) (vU aff.dim) p = reachS (Nbr aff) (vU aff.dim) q) :
    lab aff p = lab aff q := by
  unfold lab
  rw [h]

theorem lab_eq_of_nbr {aff : Vol} {p q : Coord} (h : Nbr aff p q) :
    lab aff p = lab aff q :=
  lab_eq_of_reachS_eq (reachS_eq_of_conn (nbr_symm aff) (nbr_bounds aff)
    (nbr_bounds aff p q h).1 (Relation.ReflTransGen.single h))

theorem lab_eq_of_conn {aff : Vol} {p q : Coord} (hp : inB aff.dim p)
    (h : Relation.ReflTransGen (Nbr aff) p q) : lab aff p = lab aff q :=
  lab_eq_of_reachS_eq (reachS_eq_of_conn (nbr_symm aff) (nbr_bounds aff) (mem_vU.mpr hp) h)

theorem conn_of_lab_eq {aff : Vol} {p q : Coord} (hp : inB aff.dim p) (hq : inB aff.dim q)
    (h : lab aff p = lab aff q) : Relation.ReflTransGen (Nbr aff) p q := by
  have hpU : p ∈ vU aff.dim := mem_vU.mpr hp
  have hqU : q ∈ vU aff.dim := mem_vU.mpr hq
  have hpne : ((reachS (Nbr aff) (vU aff.dim) p).image (flat aff.dim)).Nonempty :=
    ⟨flat aff.dim p, Finset.mem_image_of_mem _ (mem_reachS_self _ hpU)⟩
  have hqne : ((reachS (Nbr aff) (vU aff.dim) q).image (flat aff.dim)).Nonempty :=
    ⟨flat aff.dim q, Finset.mem_image_of_mem _ (mem_reachS_self _ hqU)⟩
  obtain ⟨mp, hmp⟩ := Finset.min_of_nonempty hpne
  obtain ⟨mq, hmq⟩ := Finset.min_of_nonempty hqne
  have hmm : mp = mq := by
    unfold lab at h
    rw [hmp, hmq, WithTop.untop'_coe, WithTop.untop'_coe] at h
    omega
  subst hmm
  obtain ⟨p2, hp2r, hp2f⟩ := Finset.mem_image.mp (Finset.mem_of_min hmp)
  obtain ⟨q2, hq2r, hq2f⟩ := Finset.mem_image.mp (Finset.mem_of_min hmq)
  have hpq2 : p2 = q2 :=
    flat_inj (mem_vU.mp (reachS_subset _ _ _ hp2r)) (mem_vU.mp (reachS_subset _ _ _ hq2r))
      (by rw [hp2f, hq2f])
  have c1 : Relation.ReflTransGen (Nbr aff) p p2 := conn_of_mem_reachS hp2r
  have c2 : Relation.ReflTransGen (Nbr aff) q q2 := conn_of_mem_reachS hq2r
  rw [hpq2] at c1
  exact c1.trans (conn_symm (nbr_symm aff) c2)

theorem lab_cast_ne_zero (aff : Vol) (p : Coord) : ((lab aff p : ℚ)) ≠ 0 := by
  have h : lab aff p ≠ 0 := by
    unfold lab
    exact Nat.succ_ne_zero _
  exact_mod_cast h

theorem getSeg_get (aff : Vol) (c : Nat) (p : Coord) :
    (get_segmentation aff).get c p = (lab aff p : ℚ) := rfl

theorem affinitize3_get (v : Vol) (i : Nat) (p : Coord) :
    (affinitize3 v).get i p = affVal v (axisDst i) p := rfl

theorem affVal_getSeg_eq_one (aff : Vol) (d : Offset3) (p : Coord) :
    affVal (get_segmentation aff) d p = 1 ↔
      inB aff.dim p ∧ inBZ aff.dim (shiftP p d) ∧
        lab aff p = lab aff (toC (shiftP p d)) := by
  unfold affVal
  by_cases hc : inB (get_segmentation aff).dim p ∧
      inBZ (get_segmentation aff).dim (shiftP p d) ∧
      (get_segmentation aff).get 0 p = (get_segmentation aff).get 0 (toC (shiftP p d)) ∧
      (get_segmentation aff).get 0 p ≠ 0
  · rw [if_pos hc]
    constructor
    · intro _
      refine ⟨hc.1, hc.2.1, ?_⟩
      have h2 := hc.2.2.1
      rw [getSeg_get, getSeg_get, Nat.cast_inj] at h2
      exact h2
    · intro _
      rfl
  · rw [if_neg hc]
    constructor
    · intro h01
      exact absurd h01 (by norm_num)
    · intro hr
      exfalso
      apply hc
      refine ⟨hr.1, hr.2.1, ?_, ?_⟩
      · rw [getSeg_get, getSeg_get, Nat.cast_inj]
        exact hr.2.2
      · rw [getSeg_get]
        exact lab_cast_ne_zero aff p

theorem nbr_recompute_iff (aff : Vol) (p q : Coord) :
    Nbr (affinitize3 (get_segmentation aff)) p q ↔
      Adj aff.dim p q ∧ lab aff p = lab aff q := by
  unfold Nbr Adj
  constructor
  · rintro ⟨h1, h2, i, hi, hc⟩
    rcases hc with ⟨hval, heq⟩ | ⟨hval, heq⟩
    · have hch := (affVal_getSeg_eq_one aff (axisDst i) p).mp hval
      have hl := hch.2.2
      rw [← heq, toC_toOff] at hl
      exact ⟨⟨h1, h2, i, hi, Or.inl heq⟩, hl⟩
    · have hch := (affVal_getSeg_eq_one aff (axisDst i) q).mp hval
      have hl := hch.2.2
      rw [← heq, toC_toOff] at hl
      exact ⟨⟨h1, h2, i, hi, Or.inr heq⟩, hl.symm⟩
  · rintro ⟨⟨h1, h2, i, hi, hor⟩, hl⟩
    refine ⟨h1, h2, i, hi, ?_⟩
    rcases hor with heq | heq
    · left
      refine ⟨?_, heq⟩
      rw [affinitize3_get, affVal_getSeg_eq_one]
      refine ⟨h1, ?_, ?_⟩
      · rw [← heq]
        exact inBZ_toOff.mpr h2
      · rw [← heq, toC_toOff]
        exact hl
    · right
      refine ⟨?_, heq⟩
      rw [affinitize3_get, affVal_getSeg_eq_one]
      refine ⟨h2, ?_, ?_⟩
      · rw [← heq]
        exact inBZ_toOff.mpr h1
      · rw [← heq, toC_toOff]
        exact hl.symm

theorem conn_recompute_iff (aff : Vol) (p q : Coord) :
    Relation.ReflTransGen (Nbr (affinitize3 (get_segmentation aff))) p q ↔
      Relation.ReflTransGen (Nbr aff) p q := by
  constructor
  · intro h
    induction h with
    | refl => exact Relation.ReflTransGen.refl
    | tail h1 h2 ih =>
      rcases (nbr_recompute_iff aff _ _).mp h2 with ⟨hadj, hl⟩
      exact ih.trans (conn_of_lab_eq hadj.1 hadj.2.1 hl)
  · intro h
    induction h with
    | refl => exact Relation.ReflTransGen.refl
    | tail h1 h2 ih =>
      exact ih.tail ((nbr_recompute_iff aff _ _).mpr ⟨nbr_adj h2, lab_eq_of_nbr h2⟩)

theorem reachS_recompute (aff : Vol) (p : Coord) :
    reachS (Nbr (affinitize3 (get_segmentation aff))) (vU aff.dim) p =
      reachS (Nbr aff) (vU aff.dim) p := by
  by_cases hp : p ∈ vU aff.dim
  · have hb2 : ∀ x y, Nbr (affinitize3 (get_segmentation aff)) x y →
        x ∈ vU aff.dim ∧ y ∈ vU aff.dim := nbr_bounds (affinitize3 (get_segmentation aff))
    ext x
    rw [mem_reachS_iff hb2 hp, mem_reachS_iff (nbr_bounds aff) hp, conn_recompute_iff]
  · rw [reachS_of_not_mem (Nbr (affinitize3 (get_segmentation aff))) hp,
      reachS_of_not_mem (Nbr aff) hp]

theorem lab_recompute (aff : Vol) (p : Coord) :
    lab (affinitize3 (get_segmentation aff)) p = lab aff p := by
  unfold lab
  rw [show (affinitize3 (get_segmentation aff)).dim = aff.dim from rfl, reachS_recompute]

theorem get_segmentation_idem (aff : Vol) :
    get_segmentation (affinitize3 (get_segmentation aff)) = get_segmentation aff := by
  have hv : (fun (_ : Nat) (p : Coord) => ((lab (affinitize3 (get_segmentation aff)) p : ℚ))) =
      (fun (_ : Nat) (p : Coord) => ((lab aff p : ℚ))) := by
    funext c p
    rw [lab_recompute]
  show Vol.mk none (affinitize3 (get_segmentation aff)).dim
      (fun _ p => ((lab (affinitize3 (get_segmentation aff)) p : ℚ))) =
    Vol.mk none aff.dim (fun _ p => ((lab aff p : ℚ)))
  rw [hv, show (affinitize3 (get_segmentation aff)).dim = aff.dim from rfl]

theorem recomputeSeg_idem (seg : Vol) :
    recomputeSeg (recomputeSeg seg) = recomputeSeg seg := by
  unfold recomputeSeg
  exact get_segmentation_idem (affinitize3 seg)



/-! ## Structural lemmas about the transforms -/

theorem astype_eq (v : Vol) : Vol.astype v = v := rfl

theorem check_volume_eq (v : Vol) : check_volume v = v := rfl

theorem extract_none {s : Sample} {k : String} (h : Sample.find? s k = none) :
    extract s k = .error .keyErr := by
  unfold extract
  rw [h]

theorem extract_isOk_of_find {s : Sample} {k : String} {v : Vol}
    (h : Sample.find? s k = some v) : ∃ m, extract s k = .ok (v, m) := by
  unfold extract
  rw [h]
  cases hm : Sample.find? s (k ++ "_mask") with
  | none => exact ⟨_, rfl⟩
  | some m => exact ⟨_, rfl⟩

theorem extract_congr {s t : Sample} (k : String)
    (h1 : Sample.find? s k = Sample.find? t k)
    (h2 : Sample.find? s (k ++ "_mask") = Sample.find? t (k ++ "_mask")) :
    extract s k = extract t k := by
  unfold extract
  rw [h1, h2]

theorem keys_cropList (off : Coord) (sz : Option Coord) (s : Sample) :
    Sample.keys (cropList off sz s).2 = Sample.keys s := by
  induction s with
  | nil => rfl
  | cons e r ih =>
    cases hc : cropEntry off sz e.2 with
    | error err =>
      unfold cropList
      rw [hc]
    | ok v2 =>
      unfold cropList
      rw [hc]
      show e.1 :: Sample.keys (cropList off sz r).2 = e.1 :: Sample.keys r
      rw [ih]

theorem cropList_success (off : Coord) (sz : Option Coord) {s : Sample}
    (h : (cropList off sz s).1 = none) :
    List.Forall₂ (fun e e2 => e2.1 = e.1 ∧ cropEntry off sz e.2 = .ok e2.2)
      s (cropList off sz s).2 := by
  induction s with
  | nil => exact List.Forall₂.nil
  | cons e r ih =>
    cases hc : cropEntry off sz e.2 with
    | error err =>
      unfold cropList at h
      rw [hc] at h
      exact absurd h (by simp)
    | ok v2 =>
      unfold cropList at h ⊢
      rw [hc] at h ⊢
      exact List.Forall₂.cons ⟨rfl, hc⟩ (ih h)

theorem boundaryApply_error {src tgt : String} {rb : Bool} {s : Sample} {e : TErr}
    (h : (boundaryApply src tgt rb s).1 = some e) :
    (boundaryApply src tgt rb s).2 = s := by
  unfold boundaryApply at h ⊢
  cases hx : extract s src with
  | error e2 => rfl
  | ok pr =>
    obtain ⟨bdr, msk⟩ := pr
    rw [hx] at h
    exact absurd h (by simp)

theorem segmentationApply_error {src tgt : String} {rc : Bool} {s : Sample} {e : TErr}
    (h : (segmentationApply src tgt rc s).1 = some e) :
    (segmentationApply src tgt rc s).2 = s := by
  unfold segmentationApply at h ⊢
  cases hx : extract s src with
  | error e2 => rfl
  | ok pr =>
    obtain ⟨seg0, msk⟩ := pr
    rw [hx] at h
    exact absurd h (by simp)

theorem affinityNoCrop_error {dst : List Offset3} {src tgt : String} {bw : Option ℚ}
    {rc : Bool} {s : Sample} {e : TErr}
    (h : (affinityNoCrop dst src tgt bw rc s).1 = some e) :
    (affinityNoCrop dst src tgt bw rc s).2 = s := by
  unfold affinityNoCrop at h ⊢
  cases hx : extract s src with
  | error e2 => rfl
  | ok pr =>
    obtain ⟨seg0, msk0⟩ := pr
    rw [hx] at h
    exact absurd h (by simp)

theorem semanticApply_error {ids : List ℚ} {src tgt : String} {rb : Bool} {s : Sample} {e : TErr}
    (h : (semanticApply ids src tgt rb s).1 = some e) :
    (semanticApply ids src tgt rb s).2 = s := by
  unfold semanticApply at h ⊢
  cases hx : extract s src with
  | error e2 => rfl
  | ok pr =>
    obtain ⟨sem, msk0⟩ := pr
    rw [hx] at h
    exact absurd h (by simp)

theorem synapseApply_error {src tgt : String} {rb : Bool} {bw : ℚ} {s : Sample} {e : TErr}
    (h : (synapseApply src tgt rb bw s).1 = some e) :
    (synapseApply src tgt rb bw s).2 = s := by
  unfold synapseApply at h ⊢
  cases hx : extract s src with
  | error e2 => rfl
  | ok pr =>
    obtain ⟨syn, msk⟩ := pr
    rw [hx] at h
    exact absurd h (by simp)

theorem objectInstanceApply_error {src tgt : String} {rb : Bool} {s : Sample} {p : Params}
    {e : TErr} (h : (objectInstanceApply src tgt rb s p).1 = some e) :
    (objectInstanceApply src tgt rb s p).2 = s := by
  unfold objectInstanceApply at h ⊢
  cases hx : extract s src with
  | error e2 => rfl
  | ok pr =>
    obtain ⟨seg, msk⟩ := pr
    rw [hx] at h
    exact absurd h (by simp)

theorem objectInstanceApply_ok_of_find (tgt : String) (rb : Bool) (p : Params)
    {src : String} {s : Sample} {seg : Vol} (h : Sample.find? s src = some seg) :
    (objectInstanceApply src tgt rb s p).1 = none := by
  obtain ⟨m, hm⟩ := extract_isOk_of_find h
  unfold objectInstanceApply
  rw [hm]

theorem centerInstanceApply_error {src tgt : String} {mk0 : Option String} {rb : Bool}
    {s : Sample} {p : Params} {e : TErr}
    (h : (centerInstanceApply src tgt mk0 rb s p).1 = some e) :
    (centerInstanceApply src tgt mk0 rb s p).2 = s := by
  unfold centerInstanceApply at h ⊢
  cases mk0 with
  | none => exact objectInstanceApply_error h
  | some mk =>
    cases hf : Sample.find? s src with
    | none => rfl
    | some seg =>
      rw [hf] at h
      exfalso
      have hfind : Sample.find? (Sample.insert s mk (centerMask seg)) src ≠ none := by
        by_cases hmk : src = mk
        · rw [hmk, find?_insert_self]
          exact Option.some_ne_none _
        · rw [find?_insert_of_ne _ hmk]
          rw [hf]
          exact Option.some_ne_none _
      cases hf2 : Sample.find? (Sample.insert s mk (centerMask seg)) src with
      | none => exact hfind hf2
      | some seg2 =>
        have := objectInstanceApply_ok_of_find tgt rb p hf2
        rw [this] at h
        exact Option.noConfusion h



theorem apply_boundary (src tgt : String) (rb : Bool) (s : Sample) (p : Params) :
    Transform.apply (.boundary src tgt rb) s p = boundaryApply src tgt rb s := rfl

theorem apply_segmentation (src tgt : String) (rc : Bool) (s : Sample) (p : Params) :
    Transform.apply (.segmentation src tgt rc) s p = segmentationApply src tgt rc s := rfl

theorem apply_affinity (dst : List Offset3) (src tgt : String) (cr cs : Option Coord)
    (bw : Option ℚ) (rc : Bool) (s : Sample) (p : Params) :
    Transform.apply (.affinity dst src tgt cr cs bw rc) s p =
      affinityApply dst src tgt cr cs bw rc s := rfl

theorem apply_semantic (ids : List ℚ) (src tgt : String) (rb : Bool) (s : Sample) (p : Params) :
    Transform.apply (.semantic ids src tgt rb) s p = semanticApply ids src tgt rb s := rfl

theorem apply_synapse (src tgt : String) (rb : Bool) (bw : ℚ) (s : Sample) (p : Params) :
    Transform.apply (.synapse src tgt rb bw) s p = synapseApply src tgt rb bw s := rfl

theorem apply_objectInstance (src tgt : String) (rb : Bool) (s : Sample) (p : Params) :
    Transform.apply (.objectInstance src tgt rb) s p = objectInstanceApply src tgt rb s p := rfl

theorem apply_centerInstance (src tgt : String) (mk0 : Option String) (rb : Bool)
    (s : Sample) (p : Params) :
    Transform.apply (.centerInstance src tgt mk0 rb) s p =
      centerInstanceApply src tgt mk0 rb s p := rfl

theorem boundaryApply_success {src tgt : String} {rb : Bool} {s : Sample}
    (h : (boundaryApply src tgt rb s).1 = none) :
    ∃ l m, (boundaryApply src tgt rb s).2 = store s tgt l m := by
  unfold boundaryApply at h ⊢
  cases hx : extract s src with
  | error e2 =>
    rw [hx] at h
    exact absurd h (by simp)
  | ok pr =>
    obtain ⟨bdr, msk⟩ := pr
    exact ⟨_, _, rfl⟩

theorem segmentationApply_success {src tgt : String} {rc : Bool} {s : Sample}
    (h : (segmentationApply src tgt rc s).1 = none) :
    ∃ l m, (segmentationApply src tgt rc s).2 = store s tgt l m := by
  unfold segmentationApply at h ⊢
  cases hx : extract s src with
  | error e2 =>
    rw [hx] at h
    exact absurd h (by simp)
  | ok pr =>
    obtain ⟨seg0, msk⟩ := pr
    exact ⟨_, _, rfl⟩

theorem affinityNoCrop_success {dst : List Offset3} {src tgt : String} {bw : Option ℚ}
    {rc : Bool} {s : Sample} (h : (affinityNoCrop dst src tgt bw rc s).1 = none) :
    ∃ l m, (affinityNoCrop dst src tgt bw rc s).2 = store s tgt l m := by
  unfold affinityNoCrop at h ⊢
  cases hx : extract s src with
  | error e2 =>
    rw [hx] at h
    exact absurd h (by simp)
  | ok pr =>
    obtain ⟨seg0, msk0⟩ := pr
    exact ⟨_, _, rfl⟩

theorem semanticApply_success {ids : List ℚ} {src tgt : String} {rb : Bool} {s : Sample}
    (h : (semanticApply ids src tgt rb s).1 = none) :
    ∃ l m, (semanticApply ids src tgt rb s).2 = store s tgt l m := by
  unfold semanticApply at h ⊢
  cases hx : extract s src with
  | error e2 =>
    rw [hx] at h
    exact absurd h (by simp)
  | ok pr =>
    obtain ⟨sem, msk0⟩ := pr
    exact ⟨_, _, rfl⟩

theorem synapseApply_success {src tgt : String} {rb : Bool} {bw : ℚ} {s : Sample}
    (h : (synapseApply src tgt rb bw s).1 = none) :
    ∃ l m, (synapseApply src tgt rb bw s).2 = store s tgt l m := by
  unfold synapseApply at h ⊢
  cases hx : extract s src with
  | error e2 =>
    rw [hx] at h
    exact absurd h (by simp)
  | ok pr =>
    obtain ⟨syn, msk⟩ := pr
    exact ⟨_, _, rfl⟩

theorem objectInstanceApply_success {src tgt : String} {rb : Bool} {s : Sample} {p : Params}
    (h : (objectInstanceApply src tgt rb s p).1 = none) :
    ∃ l m, (objectInstanceApply src tgt rb s p).2 = store s tgt l m := by
  unfold objectInstanceApply at h ⊢
  cases hx : extract s src with
  | error e2 =>
    rw [hx] at h
    exact absurd h (by simp)
  | ok pr =>
    obtain ⟨seg, msk⟩ := pr
    exact ⟨_, _, rfl⟩

theorem apply_success_keys (t : Transform) (s : Sample) (p : Params)
    (h : (Transform.apply t s p).1 = none) :
    (Transform.target t ∈ Sample.keys (Transform.apply t s p).2 ∧
      Transform.target t ++ "_mask" ∈ Sample.keys (Transform.apply t s p).2) ∧
    ∀ k ∈ Sample.keys s, k ∈ Sample.keys (Transform.apply t s p).2 := by
  cases t with
  | boundary src tgt rb =>
    rw [apply_boundary] at h ⊢
    obtain ⟨l, m, hs⟩ := boundaryApply_success h
    rw [hs]
    exact ⟨⟨mem_keys_store_target s tgt l m, mem_keys_store_mask s tgt l m⟩,
      fun k hk => mem_keys_store_of_mem s tgt l m hk⟩
  | segmentation src tgt rc =>
    rw [apply_segmentation] at h ⊢
    obtain ⟨l, m, hs⟩ := segmentationApply_success h
    rw [hs]
    exact ⟨⟨mem_keys_store_target s tgt l m, mem_keys_store_mask s tgt l m⟩,
      fun k hk => mem_keys_store_of_mem s tgt l m hk⟩
  | semantic ids src tgt rb =>
    rw [apply_semantic] at h ⊢
    obtain ⟨l, m, hs⟩ := semanticApply_success h
    rw [hs]
    exact ⟨⟨mem_keys_store_target s tgt l m, mem_keys_store_mask s tgt l m⟩,
      fun k hk => mem_keys_store_of_mem s tgt l m hk⟩
  | synapse src tgt rb bw =>
    rw [apply_synapse] at h ⊢
    obtain ⟨l, m, hs⟩ := synapseApply_success h
    rw [hs]
    exact ⟨⟨mem_keys_store_target s tgt l m, mem_keys_store_mask s tgt l m⟩,
      fun k hk => mem_keys_store_of_mem s tgt l m hk⟩
  | objectInstance src tgt rb =>
    rw [apply_objectInstance] at h ⊢
    obtain ⟨l, m, hs⟩ := objectInstanceApply_success h
    rw [hs]
    exact ⟨⟨mem_keys_store_target s tgt l m, mem_keys_store_mask s tgt l m⟩,
      fun k hk => mem_keys_store_of_mem s tgt l m hk⟩
  | affinity dst src tgt cr cs bw rc =>
    rw [apply_affinity] at h ⊢
    unfold affinityApply at h ⊢
    cases hnc : affinityNoCrop dst src tgt bw rc s with
    | mk o s1 =>
      rw [hnc] at h
      cases o with
      | some e => exact Option.noConfusion h
      | none =>
        have hn0 : (affinityNoCrop dst src tgt bw rc s).1 = none := by rw [hnc]
        obtain ⟨l, m, hs0⟩ := affinityNoCrop_success hn0
        have hs1 : s1 = store s tgt l m := by
          have h2 := hs0
          rw [hnc] at h2
          exact h2
        cases cr with
        | none =>
          show (tgt ∈ Sample.keys s1 ∧ tgt ++ "_mask" ∈ Sample.keys s1) ∧
            ∀ k ∈ Sample.keys s, k ∈ Sample.keys s1
          rw [hs1]
          exact ⟨⟨mem_keys_store_target s tgt l m, mem_keys_store_mask s tgt l m⟩,
            fun k hk => mem_keys_store_of_mem s tgt l m hk⟩
        | some off =>
          show (tgt ∈ Sample.keys (cropList off cs s1).2 ∧
              tgt ++ "_mask" ∈ Sample.keys (cropList off cs s1).2) ∧
            ∀ k ∈ Sample.keys s, k ∈ Sample.keys (cropList off cs s1).2
          rw [keys_cropList, hs1]
          exact ⟨⟨mem_keys_store_target s tgt l m, mem_keys_store_mask s tgt l m⟩,
            fun k hk => mem_keys_store_of_mem s tgt l m hk⟩
  | centerInstance src tgt mk0 rb =>
    rw [apply_centerInstance] at h ⊢
    unfold centerInstanceApply at h ⊢
    cases mk0 with
    | none =>
      obtain ⟨l, m, hs⟩ := objectInstanceApply_success h
      rw [hs]
      exact ⟨⟨mem_keys_store_target s tgt l m, mem_keys_store_mask s tgt l m⟩,
        fun k hk => mem_keys_store_of_mem s tgt l m hk⟩
    | some mk =>
      cases hf : Sample.find? s src with
      | none =>
        rw [hf] at h
        exact Option.noConfusion h
      | some seg =>
        rw [hf] at h
        have h2 : (objectInstanceApply src tgt rb (Sample.insert s mk (centerMask seg)) p).1 =
            none := h
        obtain ⟨l, m, hs⟩ := objectInstanceApply_success h2
        show (tgt ∈ Sample.keys (objectInstanceApply src tgt rb
              (Sample.insert s mk (centerMask seg)) p).2 ∧
            tgt ++ "_mask" ∈ Sample.keys (objectInstanceApply src tgt rb
              (Sample.insert s mk (centerMask seg)) p).2) ∧
          ∀ k ∈ Sample.keys s, k ∈ Sample.keys (objectInstanceApply src tgt rb
              (Sample.insert s mk (centerMask seg)) p).2
        rw [hs]
        refine ⟨⟨mem_keys_store_target _ tgt l m, mem_keys_store_mask _ tgt l m⟩, ?_⟩
        intro k hk
        exact mem_keys_store_of_mem _ tgt l m (mem_keys_insert_of_mem s mk (centerMask seg) hk)



/-! ## Pipeline lemmas and the claims -/

theorem runList_cons_none {t : Transform} {ts : List Transform} {s : Sample} {p : Params}
    {s1 : Sample} (h : Transform.apply t s p = (none, s1)) :
    runList (t :: ts) s p = runList ts s1 p := by
  conv_lhs => unfold runList
  rw [h]

theorem runList_cons_some {t : Transform} {ts : List Transform} {s : Sample} {p : Params}
    {e : TErr} {s1 : Sample} (h : Transform.apply t s p = (some e, s1)) :
    runList (t :: ts) s p = (some e, s1) := by
  unfold runList
  rw [h]

theorem runList_mem_keys (ts : List Transform) (s : Sample) (p : Params)
    (h : (runList ts s p).1 = none) :
    ∀ k ∈ Sample.keys s, k ∈ Sample.keys (runList ts s p).2 := by
  induction ts generalizing s with
  | nil => exact fun k hk => hk
  | cons t ts ih =>
    cases happ : Transform.apply t s p with
    | mk o s1 =>
      cases o with
      | some e =>
        rw [runList_cons_some happ] at h
        exact Option.noConfusion h
      | none =>
        rw [runList_cons_none happ] at h ⊢
        intro k hk
        have hk1 : k ∈ Sample.keys s1 := by
          have h3 := (apply_success_keys t s p (by rw [happ])).2 k hk
          rw [happ] at h3
          exact h3
        exact ih s1 h k hk1

theorem runList_targets (ts : List Transform) (s : Sample) (p : Params)
    (h : (runList ts s p).1 = none) :
    ∀ t ∈ ts, Transform.target t ∈ Sample.keys (runList ts s p).2 ∧
      Transform.target t ++ "_mask" ∈ Sample.keys (runList ts s p).2 := by
  induction ts generalizing s with
  | nil => exact fun t ht => absurd ht (List.not_mem_nil t)
  | cons t0 ts ih =>
    cases happ : Transform.apply t0 s p with
    | mk o s1 =>
      cases o with
      | some e =>
        rw [runList_cons_some happ] at h
        exact Option.noConfusion h
      | none =>
        rw [runList_cons_none happ] at h ⊢
        intro t ht
        rcases List.mem_cons.mp ht with rfl | hmem
        · have hsk := apply_success_keys t s p (by rw [happ])
          have ht1 : Transform.target t ∈ Sample.keys s1 := by
            have h3 := hsk.1.1
            rw [happ] at h3
            exact h3
          have ht2 : Transform.target t ++ "_mask" ∈ Sample.keys s1 := by
            have h3 := hsk.1.2
            rw [happ] at h3
            exact h3
          exact ⟨runList_mem_keys ts s1 p h _ ht1, runList_mem_keys ts s1 p h _ ht2⟩
        · exact ih s1 h t hmem

theorem runList_fold (ts : List Transform) (s : Sample) (p : Params)
    (h : noFailB ts s p = true) :
    runList ts s p = (none, ts.foldl (fun acc t => (Transform.apply t acc p).2) s) := by
  induction ts generalizing s with
  | nil => rfl
  | cons t ts ih =>
    cases happ : Transform.apply t s p with
    | mk o s1 =>
      have h4 : noFailB (t :: ts) s p = true := h
      unfold noFailB at h4
      rw [happ] at h4
      cases o with
      | some e => exact Bool.noConfusion h4
      | none =>
        rw [runList_cons_none happ, List.foldl_cons, happ]
        exact ih s1 h4

/-- C1: applying a Pipeline (Transformer) whose steps all succeed is the
left-to-right fold of its Transforms in insertion order, with the same call
parameters passed unchanged to every Transform and no Transform skipped. -/
theorem c1_pipeline_is_fold (ts : List Transform) (s : Sample) (p : Params)
    (h : noFailB ts s p = true) :
    Transformer.call ⟨ts⟩ s p =
      (none, ts.foldl (fun acc t => (Transform.apply t acc p).2) s) :=
  runList_fold ts s p h

theorem c1_witness :
    Transformer.call ⟨[Transform.boundary "a" "t1" false, Transform.synapse "t1" "t2" false 0]⟩
        sOne pNone =
      (none, [Transform.boundary "a" "t1" false, Transform.synapse "t1" "t2" false 0].foldl
        (fun acc t => (Transform.apply t acc pNone).2) sOne) :=
  c1_pipeline_is_fold [Transform.boundary "a" "t1" false, Transform.synapse "t1" "t2" false 0]
    sOne pNone (by decide)

/-- C2: after a fully successful pipeline run, every configured target label
key of every Transform in the pipeline is present in the resulting sample
together with its companion mask key named target plus "_mask". -/
theorem c2_targets_present (ts : List Transform) (s : Sample) (p : Params)
    (h : (Transformer.call ⟨ts⟩ s p).1 = none) :
    ∀ t ∈ ts, Transform.target t ∈ Sample.keys (Transformer.call ⟨ts⟩ s p).2 ∧
      Transform.target t ++ "_mask" ∈ Sample.keys (Transformer.call ⟨ts⟩ s p).2 :=
  runList_targets ts s p h

theorem c2_witness :
    "t1" ∈ Sample.keys (Transformer.call
        ⟨[Transform.boundary "a" "t1" false, Transform.synapse "t1" "t2" false 0]⟩
        sOne pNone).2 ∧
    "t1" ++ "_mask" ∈ Sample.keys (Transformer.call
        ⟨[Transform.boundary "a" "t1" false, Transform.synapse "t1" "t2" false 0]⟩
        sOne pNone).2 :=
  c2_targets_present
    [Transform.boundary "a" "t1" false, Transform.synapse "t1" "t2" false 0]
    sOne pNone (by decide) (Transform.boundary "a" "t1" false) (by simp)

/-- C10: a Pipeline to which no Transform has been appended is the identity
on samples, for every sample and every parameter mapping. -/
theorem c10_empty_pipeline_identity (s : Sample) (p : Params) :
    Transformer.call ⟨[]⟩ s p = (none, s) := rfl

theorem apply_error_unchanged (t : Transform) (s : Sample) (p : Params) (e : TErr)
    (hc : Transform.isAffinityWithCrop t = false)
    (h : (Transform.apply t s p).1 = some e) : (Transform.apply t s p).2 = s := by
  cases t with
  | boundary src tgt rb => exact boundaryApply_error h
  | segmentation src tgt rc => exact segmentationApply_error h
  | semantic ids src tgt rb => exact semanticApply_error h
  | synapse src tgt rb bw => exact synapseApply_error h
  | objectInstance src tgt rb => exact objectInstanceApply_error h
  | centerInstance src tgt mk0 rb => exact centerInstanceApply_error h
  | affinity dst src tgt cr cs bw rc =>
    cases cr with
    | some off => exact Bool.noConfusion hc
    | none =>
      rw [apply_affinity] at h ⊢
      unfold affinityApply at h ⊢
      cases hnc : affinityNoCrop dst src tgt bw rc s with
      | mk o s1 =>
        rw [hnc] at h
        cases o with
        | none => exact Option.noConfusion h
        | some e2 =>
          have he : (affinityNoCrop dst src tgt bw rc s).1 = some e2 := by rw [hnc]
          have h2 := affinityNoCrop_error he
          rw [hnc] at h2
          exact h2

/-- C5: every Transform either fully updates its target keys or fails before
writing anything -- on an error the sample is returned unchanged -- for every
variant except Affinity configured with a crop, whose sample-wide crop step
can fail mid-way and leave a partially cropped sample, as exhibited by the
concrete run in the second conjunct. -/
theorem c5_atomicity :
    (∀ (t : Transform) (s : Sample) (p : Params) (e : TErr),
        Transform.isAffinityWithCrop t = false →
        (Transform.apply t s p).1 = some e → (Transform.apply t s p).2 = s) ∧
    ((Transform.apply tC5 sC5 pNone).1 = some TErr.shapeErr ∧
      (Sample.find? (Transform.apply tC5 sC5 pNone).2 "seg").map Vol.dim = some (2, 2, 2) ∧
      (Sample.find? (Transform.apply tC5 sC5 pNone).2 "small").map Vol.dim = some (1, 1, 1)) := by
  constructor
  · exact fun t s p e hc h => apply_error_unchanged t s p e hc h
  · exact ⟨by decide, by decide, by decide⟩

theorem c5_witness :
    (Transform.apply (Transform.boundary "x" "t" false) [] pNone).2 = [] :=
  c5_atomicity.1 (Transform.boundary "x" "t" false) [] pNone TErr.keyErr (by decide) (by decide)

/-- C6: extract fails with the KeyError-kind error whenever the requested key
is absent from the sample mapping. -/
theorem c6_extract_missing_key (s : Sample) (k : String) (h : k ∉ Sample.keys s) :
    extract s k = .error TErr.keyErr :=
  extract_none ((find?_eq_none_iff s k).mpr h)

theorem c6_witness : extract [] "a" = .error TErr.keyErr :=
  c6_extract_missing_key [] "a" (by decide)

/-- C7: appending a non-Transform value to a Pipeline fails with the
TypeError-kind error and leaves the transform sequence unchanged. -/
theorem c7_append_non_transform (tr : Transformer) (tag : Nat) :
    Transformer.append tr (PyVal.other tag) = (some TErr.typeErr, tr) := rfl



theorem crop_ok_spec {v : Vol} {off sz : Coord} {v2 : Vol} (h : crop v off sz = .ok v2) :
    v2.nchan = v.nchan ∧ v2.dim = sz ∧
      ∀ c q, v2.get c q = v.get c (q.1 + off.1, q.2.1 + off.2.1, q.2.2 + off.2.2) := by
  unfold crop at h
  by_cases hb : off.1 + sz.1 ≤ v.dim.1 ∧ off.2.1 + sz.2.1 ≤ v.dim.2.1 ∧
      off.2.2 + sz.2.2 ≤ v.dim.2.2
  · rw [if_pos hb] at h
    injection h with h2
    rw [← h2]
    refine ⟨rfl, rfl, ?_⟩
    intro c q
    unfold Vol.get
    obtain ⟨n, d, f⟩ := v
    cases n with
    | none => rfl
    | some m => rfl
  · rw [if_neg hb] at h
    exact Except.noConfusion h

/-- C4: a successful Affinity-with-crop application crops every entry of the
sample: each resulting entry keeps its key and channel structure, has the
configured crop size as its spatial shape, and its values match the
corresponding sub-box of the uncropped output (the sample state right after
the affinity label and mask were written). -/
theorem c4_affinity_crop (dst : List Offset3) (src tgt : String) (off sz : Coord)
    (bw : Option ℚ) (rc : Bool) (s : Sample) (p : Params)
    (h : (Transform.apply (.affinity dst src tgt (some off) (some sz) bw rc) s p).1 = none) :
    List.Forall₂ (fun e e2 => e2.1 = e.1 ∧ e2.2.nchan = e.2.nchan ∧ e2.2.dim = sz ∧
        ∀ c q, inB sz q →
          e2.2.get c q = e.2.get c (q.1 + off.1, q.2.1 + off.2.1, q.2.2 + off.2.2))
      (affinityNoCrop dst src tgt bw rc s).2
      (Transform.apply (.affinity dst src tgt (some off) (some sz) bw rc) s p).2 := by
  rw [apply_affinity] at h ⊢
  unfold affinityApply at h ⊢
  cases hnc : affinityNoCrop dst src tgt bw rc s with
  | mk o s1 =>
    rw [hnc] at h
    cases o with
    | some e => exact Option.noConfusion h
    | none =>
      have hcl : (cropList off (some sz) s1).1 = none := h
      have hf2 := cropList_success off (some sz) hcl
      refine List.Forall₂.imp ?_ hf2
      intro a b hab
      obtain ⟨hb1, hb2⟩ := hab
      have hcr : crop a.2 off sz = .ok b.2 := hb2
      obtain ⟨hn, hd, hg⟩ := crop_ok_spec hcr
      exact ⟨hb1, hn, hd, fun c q _ => hg c q⟩

theorem c4_witness :
    List.Forall₂ (fun e e2 => e2.1 = e.1 ∧ e2.2.nchan = e.2.nchan ∧ e2.2.dim = (2, 2, 2) ∧
        ∀ c q, inB (2, 2, 2) q →
          e2.2.get c q = e.2.get c (q.1 + 1, q.2.1 + 1, q.2.2 + 1))
      (affinityNoCrop [(0, 0, 1)] "seg" "t2" none false sC4).2
      (Transform.apply (.affinity [(0, 0, 1)] "seg" "t2"
        (some (1, 1, 1)) (some (2, 2, 2)) none false) sC4 pNone).2 :=
  c4_affinity_crop [(0, 0, 1)] "seg" "t2" (1, 1, 1) (2, 2, 2) none false sC4 pNone (by decide)

theorem binarize_object_get (v : Vol) (oid : Option ℚ) (c : Nat) (q : Coord) :
    (binarize_object v oid).get c q =
      if v.get c q = oid.getD (v.get 0 (centerOf v.dim)) then 1 else 0 := by
  obtain ⟨n, d, f⟩ := v
  cases n with
  | none => rfl
  | some m => rfl

/-- C8: ObjectInstance binarizes exactly one target object: the written label
is 1.0 at voxels carrying the target ID and 0 everywhere else, where the
target ID is the runtime call parameter object_id when supplied and
otherwise the ID found at the source volume's center voxel. -/
theorem c8_object_instance (src tgt : String) (rb : Bool) (s : Sample) (p : Params)
    (seg : Vol) (h : Sample.find? s src = some seg) :
    (Transform.apply (.objectInstance src tgt rb) s p).1 = none ∧
    Sample.find? (Transform.apply (.objectInstance src tgt rb) s p).2 tgt =
      some (binarize_object seg p.object_id) ∧
    (binarize_object seg p.object_id).nchan = seg.nchan ∧
    (binarize_object seg p.object_id).dim = seg.dim ∧
    ∀ c q, (binarize_object seg p.object_id).get c q =
      if seg.get c q = p.object_id.getD (seg.get 0 (centerOf seg.dim)) then 1 else 0 := by
  obtain ⟨m, hm⟩ := extract_isOk_of_find h
  rw [apply_objectInstance]
  unfold objectInstanceApply
  rw [hm]
  exact ⟨rfl, find?_store_target s tgt _ _, rfl, rfl,
    fun c q => binarize_object_get seg p.object_id c q⟩

theorem c8_witness :
    (Transform.apply (.objectInstance "a" "t" false) sOne pNone).1 = none ∧
    Sample.find? (Transform.apply (.objectInstance "a" "t" false) sOne pNone).2 "t" =
      some (binarize_object V12 pNone.object_id) ∧
    (binarize_object V12 pNone.object_id).nchan = V12.nchan ∧
    (binarize_object V12 pNone.object_id).dim = V12.dim ∧
    ∀ c q, (binarize_object V12 pNone.object_id).get c q =
      if V12.get c q = pNone.object_id.getD (V12.get 0 (centerOf V12.dim)) then 1 else 0 :=
  c8_object_instance "a" "t" false sOne pNone V12 rfl

theorem centerMask_get (seg : Vol) (c : Nat) (q : Coord) :
    (centerMask seg).get c q = if q = centerOf seg.dim then 1 else 0 := by
  obtain ⟨n, d, f⟩ := seg
  cases n with
  | none => rfl
  | some m => rfl

/-- C9: CenterInstance with a configured mask key first writes under that key
a volume of the source's shape holding 1.0 exactly at the spatial center
voxel (the floor-half index of each of the last three axes) and 0
elsewhere, and only then delegates to ObjectInstance's labeling logic on the
so-extended sample. -/
theorem c9_center_instance (src tgt mk : String) (rb : Bool) (s : Sample) (p : Params)
    (seg : Vol) (h : Sample.find? s src = some seg) :
    Transform.apply (.centerInstance src tgt (some mk) rb) s p =
      objectInstanceApply src tgt rb (Sample.insert s mk (centerMask seg)) p ∧
    (centerMask seg).nchan = seg.nchan ∧ (centerMask seg).dim = seg.dim ∧
    ∀ c q, (centerMask seg).get c q = if q = centerOf seg.dim then 1 else 0 := by
  refine ⟨?_, rfl, rfl, fun c q => centerMask_get seg c q⟩
  rw [apply_centerInstance]
  unfold centerInstanceApply
  rw [h]

theorem c9_witness :
    Transform.apply (.centerInstance "a" "t" (some "ctr") false) sOne pNone =
      objectInstanceApply "a" "t" false (Sample.insert sOne "ctr" (centerMask V12)) pNone ∧
    (centerMask V12).nchan = V12.nchan ∧ (centerMask V12).dim = V12.dim ∧
    ∀ c q, (centerMask V12).get c q = if q = centerOf V12.dim then 1 else 0 :=
  c9_center_instance "a" "t" "ctr" false sOne pNone V12 rfl



theorem segmentationApply_ok (tgt : String) (rc : Bool) {src : String} {s : Sample}
    {seg0 msk0 : Vol} (hx : extract s src = .ok (seg0, msk0)) :
    segmentationApply src tgt rc s =
      (none, store s tgt (if rc then recomputeSeg seg0 else seg0) msk0) := by
  unfold segmentationApply
  rw [hx]
  exact rfl

theorem segmentationApply_twice (src tgt : String) (s : Sample)
    (hal1 : tgt ≠ src ++ "_mask") (hal2 : src ≠ tgt ++ "_mask") {s1 : Sample}
    (hs : segmentationApply src tgt true s = (none, s1)) :
    segmentationApply src tgt true s1 = (none, s1) := by
  cases hx : extract s src with
  | error e2 =>
    unfold segmentationApply at hs
    rw [hx] at hs
    exact absurd hs (by simp)
  | ok pr =>
    obtain ⟨seg0, msk0⟩ := pr
    rw [segmentationApply_ok tgt true hx] at hs
    injection hs with h01 hb
    by_cases hts : tgt = src
    · subst hts
      subst hb
      have hx2 : extract (store s tgt (if true then recomputeSeg seg0 else seg0) msk0) tgt =
          .ok (if true then recomputeSeg seg0 else seg0, Vol.astype msk0) := by
        unfold extract
        rw [find?_store_target, find?_store_mask]
      rw [segmentationApply_ok tgt true hx2]
      simp only [if_true, astype_eq, recomputeSeg_idem]
      rw [store_store]
    · subst hb
      have hf1 : Sample.find? (store s tgt (if true then recomputeSeg seg0 else seg0) msk0)
          src = Sample.find? s src :=
        find?_store_other s (fun hc => hts hc.symm) hal2 _ _
      have hf2 : Sample.find? (store s tgt (if true then recomputeSeg seg0 else seg0) msk0)
          (src ++ "_mask") = Sample.find? s (src ++ "_mask") :=
        find?_store_other s (fun hc => hal1 hc.symm)
          (fun hc => hts (append_mask_inj hc).symm) _ _
      have hxx : extract (store s tgt (if true then recomputeSeg seg0 else seg0) msk0) src =
          extract s src := extract_congr src hf1 hf2
      rw [segmentationApply_ok tgt true (hxx.trans hx)]
      rw [store_store]

/-- C3 as literally stated fails on the code: when the Segmentation target
key aliases the source's mask key (source "a_mask", target "a"), the first
application overwrites the source's mask entry with the all-ones default and
the recomputed target, so a second application reads different inputs and
produces a different sample. -/
theorem c3_counterexample :
    ¬ ResEqv
      (Transformer.call ⟨[Transform.segmentation "a_mask" "a" true,
        Transform.segmentation "a_mask" "a" true]⟩ [("a_mask", V12)] pNone)
      (Transformer.call ⟨[Transform.segmentation "a_mask" "a" true]⟩
        [("a_mask", V12)] pNone) := by
  decide

/-- C3 (amended): applying Segmentation with recompute twice in sequence
yields the same resulting sample as applying it once, provided the target
key is not the source key with "_mask" appended and the source key is not
the target key with "_mask" appended (no aliasing between the read pair and
the written pair). -/
theorem c3_recompute_idempotent (src tgt : String) (s : Sample) (p : Params)
    (hal1 : tgt ≠ src ++ "_mask") (hal2 : src ≠ tgt ++ "_mask") :
    Transformer.call ⟨[Transform.segmentation src tgt true,
        Transform.segmentation src tgt true]⟩ s p =
      Transformer.call ⟨[Transform.segmentation src tgt true]⟩ s p := by
  show runList [Transform.segmentation src tgt true, Transform.segmentation src tgt true] s p =
    runList [Transform.segmentation src tgt true] s p
  cases ha : segmentationApply src tgt true s with
  | mk o s1 =>
    cases o with
    | some e =>
      have ha2 : Transform.apply (Transform.segmentation src tgt true) s p = (some e, s1) := ha
      rw [runList_cons_some ha2, runList_cons_some ha2]
    | none =>
      have ha2 : Transform.apply (Transform.segmentation src tgt true) s p = (none, s1) := ha
      have hT := segmentationApply_twice src tgt s hal1 hal2 ha
      have hT2 : Transform.apply (Transform.segmentation src tgt true) s1 p = (none, s1) := hT
      rw [runList_cons_none ha2, runList_cons_none ha2, runList_cons_none hT2]

theorem c3_witness :
    Transformer.call ⟨[Transform.segmentation "a" "b" true,
        Transform.segmentation "a" "b" true]⟩ sOne pNone =
      Transformer.call ⟨[Transform.segmentation "a" "b" true]⟩ sOne pNone :=
  c3_recompute_idempotent "a" "b" sOne pNone (by decide) (by decide)


end PatchProvider
